import Mathlib

/-
Verification of the streaming secret-redaction filter (the `masker` package)
of keylockerbv/secrethub-cli.

The repository ships the package's unit tests (TestMatcher, TestNewMaskedWriter,
TestNewMaskedWriter_FlushBeforeTimeout, TestNewMaskedWriter_WriteError); the
implementation itself (sequenceMatcher, New, MaskedWriter, Run, Flush) is not in
the source tree, so the definitions below are modelled from the specification
(spec.md sections 3 - 6), with the shipped unit tests arbitrating wherever the
specification's prose conflicts with the tests' expected values.

Bytes are modelled as Nat (only equality of byte values matters), byte strings
as List Nat, and the asynchronous pump as a deterministic event sequence: a
`chunk` event is one Write call's data being drained and fed byte-at-a-time, a
`timeout` event is an expiry of the flush timer between chunks, and a final
flush step models Masker.Flush.  The sink is modelled as an oracle mapping the
ordinal of a sink write to an optional error code; emitted output is recorded
as a list of items (literal byte, or one mask token per committed span).
-/

set_option maxRecDepth 100000

/-- Byte sequence of an ASCII string literal. -/
def sBytes (s : String) : List Nat := s.toList.map Char.toNat

/-- Modelled from the spec: the missing `sequenceMatcher`'s streaming KMP
fallback loop of section 4.1 - while `j > 0` and `pattern[j] != byte`, set
`j := failureTable[j-1]`.  `fuel` bounds the iteration count; `fuel = j`
suffices because a well-formed failure table strictly decreases `j`. -/
def kmpFall (pat ft : List Nat) (b : Nat) : Nat → Nat → Nat
  | 0, j => j
  | fuel+1, j =>
    if j = 0 then 0
    else if pat.getD j 0 = b then j
    else kmpFall pat ft b fuel (ft.getD (j - 1) 0)

/-- Modelled from the spec: one advance of the matcher cursor by the streaming
KMP rule of section 4.1 - fall back through the failure table, then increment
the cursor when the current pattern byte equals the fed byte. -/
def feedJ (pat ft : List Nat) (j b : Nat) : Nat :=
  let r := kmpFall pat ft b j j
  if pat.getD r 0 = b then r + 1 else r

/-- Modelled from the spec: iteration of the classic prefix-function
construction over the remaining pattern bytes, carrying the table built so far
and the previous entry. -/
def buildFTAux (pat : List Nat) : List Nat → Nat → List Nat → List Nat
  | ft, _, [] => ft
  | ft, k, c :: rest =>
    let k2 := feedJ pat ft k c
    buildFTAux pat (ft ++ [k2]) k2 rest

/-- Modelled from the spec: the precomputed failure table of a Pattern
(section 3) - the classic prefix function of the pattern. -/
def buildFT (pat : List Nat) : List Nat :=
  match pat with
  | [] => []
  | _ :: rest => buildFTAux pat [0] 0 rest

/-- Modelled from the spec: the missing `sequenceMatcher` - an immutable
pattern and failure table plus the mutable cursor `j` of section 3. -/
structure SeqMatcher where
  pat : List Nat
  ft : List Nat
  j : Nat
deriving DecidableEq

/-- A freshly constructed matcher for a pattern. -/
def mkMatcher (pat : List Nat) : SeqMatcher := ⟨pat, buildFT pat, 0⟩

/-- Modelled from the spec plus the shipped TestMatcher vectors: the missing
`sequenceMatcher.Read` - advance the cursor by the KMP rule; when the cursor
reaches the pattern length report a completed match of that length and reset
the cursor to 0 (the shipped test expects offsets 0 and 3 only for pattern
"tt" in "ttattt", i.e. non-overlapping consumption, which forces the
reset-to-zero rather than the failure-table reset claimed by section 4.1). -/
def SeqMatcher.read (m : SeqMatcher) (b : Nat) : Nat × SeqMatcher :=
  let j2 := feedJ m.pat m.ft m.j b
  if j2 = m.pat.length then (m.pat.length, { m with j := 0 })
  else (0, { m with j := j2 })

/-- Modelled from the spec, literally: the variant of `SeqMatcher.read` that
follows section 4.1's words verbatim and resets the cursor to
`failureTable[j-1]` after a completed match.  Kept only to compare against the
shipped test expectations. -/
def SeqMatcher.readSpecReset (m : SeqMatcher) (b : Nat) : Nat × SeqMatcher :=
  let j2 := feedJ m.pat m.ft m.j b
  if j2 = m.pat.length then (m.pat.length, { m with j := m.ft.getD (j2 - 1) 0 })
  else (0, { m with j := j2 })

/-- Modelled from the spec: `sequenceMatcher.Reset` - drop the partial
progress, cursor back to 0. -/
def SeqMatcher.reset (m : SeqMatcher) : SeqMatcher := { m with j := 0 }

/-- The TestMatcher harness loop: feed the input byte by byte, optionally
calling Reset just before the byte at `resetIdx`, and record the start offset
`i - matchLength + 1` for every positive match length returned. -/
def matcherMatchesAux (step : SeqMatcher → Nat → Nat × SeqMatcher) (resetIdx : Option Nat) :
    SeqMatcher → Nat → List Nat → List Nat
  | _, _, [] => []
  | m, i, b :: rest =>
    let m1 := if resetIdx = some i then m.reset else m
    let r := step m1 b
    if 0 < r.1 then (i + 1 - r.1) :: matcherMatchesAux step resetIdx r.2 (i + 1) rest
    else matcherMatchesAux step resetIdx r.2 (i + 1) rest

/-- Start offsets reported by a fresh matcher for `pat` over `input`. -/
def matcherMatches (pat input : List Nat) : List Nat :=
  matcherMatchesAux SeqMatcher.read none (mkMatcher pat) 0 input

/-- Start offsets reported when Reset is called just before index `r`. -/
def matcherMatchesReset (pat input : List Nat) (r : Nat) : List Nat :=
  matcherMatchesAux SeqMatcher.read (some r) (mkMatcher pat) 0 input

/-- Start offsets reported by the spec-literal failure-table-reset variant. -/
def matcherMatchesSpecReset (pat input : List Nat) : List Nat :=
  matcherMatchesAux SeqMatcher.readSpecReset none (mkMatcher pat) 0 input

/-- One resolved span of output: a literal byte, or one mask token recording
the original bytes of the span it replaces. -/
inductive MaskItem where
  | lit (b : Nat)
  | mask (bs : List Nat)
deriving DecidableEq

/-- The original stream bytes an output item resolves. -/
def itemBytes : MaskItem → List Nat
  | .lit b => [b]
  | .mask bs => bs

/-- All stream bytes resolved by a list of output items, in order. -/
def resolvedBytes (items : List MaskItem) : List Nat :=
  (items.map itemBytes).flatten

/-- Modelled from the spec: the state owned by the missing Stream Pump /
Match Coordinator (sections 4.2, 4.3) - per-pattern matchers, the pending
buffer (kept contiguous: `pend` holds the raw bytes whose absolute indices are
`pendStart`, `pendStart+1`, ...), open candidates `(start, end)`, the emitted
items, the count of performed sink writes and the latched sink error. -/
structure MaskerState where
  matchers : List SeqMatcher
  pendStart : Nat
  pend : List Nat
  cands : List (Nat × Nat)
  items : List MaskItem
  writes : Nat
  serr : Option Nat
deriving DecidableEq

/-- Modelled from the spec: one write call to the underlying sink with
write-once error latching (sections 3, 4.3) - once `serr` is set, further
pump writes are no-ops. -/
def sinkWrite (sink : Nat → Option Nat) (st : MaskerState) : MaskerState :=
  if st.serr.isSome then st
  else { st with writes := st.writes + 1, serr := sink st.writes }

/-- Emit the head pending byte as literal output (one sink write). -/
def emitLit1 (sink : Nat → Option Nat) (st : MaskerState) : MaskerState :=
  match st.pend with
  | [] => st
  | b :: rest =>
    sinkWrite sink { st with pend := rest, pendStart := st.pendStart + 1,
                             items := st.items ++ [MaskItem.lit b] }

/-- Emit the first `n` pending bytes as literal output, oldest first. -/
def emitLits (sink : Nat → Option Nat) : Nat → MaskerState → MaskerState
  | 0, st => st
  | n+1, st => emitLits sink n (emitLit1 sink st)

/-- Emit the first `n` pending bytes as one mask token (one sink write). -/
def emitMask (sink : Nat → Option Nat) (n : Nat) (st : MaskerState) : MaskerState :=
  if n = 0 then st
  else
    sinkWrite sink { st with pend := st.pend.drop n,
                             pendStart := st.pendStart + min n st.pend.length,
                             items := st.items ++ [MaskItem.mask (st.pend.take n)] }

/-- Modelled from the spec: `minActiveStart` of section 4.2 - the minimum
implied match start `i - j + 1` over all matchers with `j > 0`, where `iNext`
is the absolute index one past the last fed byte (`none` when no matcher is
active). -/
def minActiveStart (ms : List SeqMatcher) (iNext : Nat) : Option Nat :=
  ms.foldl (fun acc m =>
    if m.j = 0 then acc
    else
      match acc with
      | none => some (iNext - m.j)
      | some v => some (min v (iNext - m.j))) none

/-- Modelled from the spec: candidate selection of section 4.2 step 4 - the
best candidate by start ascending, then span length (end) descending. -/
def selectBest : List (Nat × Nat) → Option (Nat × Nat)
  | [] => none
  | c :: rest =>
    match selectBest rest with
    | none => some c
    | some d => if c.1 < d.1 ∨ (c.1 = d.1 ∧ d.2 < c.2) then some c else some d

/-- Modelled from the spec: one application of section 4.2's commit rule.  A
candidate is safe when its end precedes every active matcher's implied start;
among safe candidates the best is selected, the pending bytes before its start
are released literally (stream order), its span is emitted as one mask token,
candidates overlapping the committed span are discarded (overlapping
occurrences are not double-reported), and every active matcher whose partial
progress overlapped the span is reset.  Returns `none` when nothing commits. -/
def commitOnce (sink : Nat → Option Nat) (st : MaskerState) : Option MaskerState :=
  let iNext := st.pendStart + st.pend.length
  let mas := minActiveStart st.matchers iNext
  let safe := st.cands.filter (fun c =>
    match mas with
    | none => true
    | some v => decide (c.2 < v))
  match selectBest safe with
  | none => none
  | some c =>
    let st1 := emitLits sink (c.1 - st.pendStart) st
    let st2 := emitMask sink (c.2 + 1 - st1.pendStart) st1
    some { st2 with
      cands := st2.cands.filter (fun d => decide (c.2 < d.1)),
      matchers := st2.matchers.map (fun m =>
        if m.j ≠ 0 ∧ iNext - m.j ≤ c.2 then m.reset else m) }

/-- Modelled from the spec: section 4.2 steps 4 - 6 - commit resolvable
candidates until none is left, then release the head pending bytes that are
older than every active matcher's implied start and every open candidate's
start.  Fuel bounds the loop; each commit removes at least one candidate, so
`cands.length + 1` fuel suffices. -/
def commitLoop (sink : Nat → Option Nat) : Nat → MaskerState → MaskerState
  | 0, st => st
  | fuel+1, st =>
    match commitOnce sink st with
    | some st2 => commitLoop sink fuel st2
    | none =>
      let iNext := st.pendStart + st.pend.length
      let mas := minActiveStart st.matchers iNext
      let bound := st.cands.foldl (fun acc c =>
        match acc with
        | none => some c.1
        | some v => some (min v c.1)) mas
      match bound with
      | none => emitLits sink st.pend.length st
      | some v => emitLits sink (v - st.pendStart) st

/-- Feed one byte to every matcher; returns the advanced matchers and the
positive match lengths reported. -/
def feedMatchers (b : Nat) : List SeqMatcher → List SeqMatcher × List Nat
  | [] => ([], [])
  | m :: rest =>
    let r := m.read b
    let rs := feedMatchers b rest
    (r.2 :: rs.1, if 0 < r.1 then r.1 :: rs.2 else rs.2)

/-- Modelled from the spec: section 4.2 steps 1 - 6 for one incoming byte -
append it to the pending buffer, feed every matcher, record a candidate
`(i - L + 1, i)` for every reported match length `L`, then run the commit
loop. -/
def processByte (sink : Nat → Option Nat) (st : MaskerState) (b : Nat) : MaskerState :=
  let i := st.pendStart + st.pend.length
  let fm := feedMatchers b st.matchers
  let st2 : MaskerState :=
    { st with pend := st.pend ++ [b], matchers := fm.1,
              cands := st.cands ++ fm.2.map (fun L => (i + 1 - L, i)) }
  commitLoop sink (st2.cands.length + 1) st2

/-- Modelled from the spec: the flush-timer expiry path of section 4.3 -
release the entire pending buffer as literal bytes, abandon open candidates
and reset every matcher. -/
def timeoutStep (sink : Nat → Option Nat) (st : MaskerState) : MaskerState :=
  let st1 := emitLits sink st.pend.length st
  { st1 with cands := [], matchers := st1.matchers.map SeqMatcher.reset }

/-- A pump event: one Write call's chunk being drained, or a flush-timer
expiry between chunks. -/
inductive MaskEv where
  | chunk (bs : List Nat)
  | timeout

/-- Process one pump event. -/
def stepEv (sink : Nat → Option Nat) (st : MaskerState) : MaskEv → MaskerState
  | .chunk bs => bs.foldl (processByte sink) st
  | .timeout => timeoutStep sink st

/-- Modelled from the spec: the state of a freshly constructed Masker
(section 6 `New`). -/
def initMasker (pats : List (List Nat)) : MaskerState :=
  ⟨pats.map mkMatcher, 0, [], [], [], 0, none⟩

/-- Run the pump over a sequence of events. -/
def runEvents (sink : Nat → Option Nat) (st : MaskerState) (evs : List MaskEv) : MaskerState :=
  evs.foldl (stepEv sink) st

/-- Modelled from the spec: `Flush` (section 4.5) treats the current instant
as a timeout, releasing all pending bytes exactly as the timer-expiry path
does; its return value is the latched `serr` of the resulting state. -/
def flushStep (sink : Nat → Option Nat) (st : MaskerState) : MaskerState :=
  timeoutStep sink st

/-- A complete run: construct, process the events, then Flush. -/
def maskerRun (pats : List (List Nat)) (sink : Nat → Option Nat) (evs : List MaskEv) :
    MaskerState :=
  flushStep sink (runEvents sink (initMasker pats) evs)

/-- The byte stream delivered to the sink: each literal item contributes its
byte, each mask item contributes the configured mask text. -/
def renderOut (maskText : List Nat) (items : List MaskItem) : List Nat :=
  (items.map (fun it =>
    match it with
    | .lit b => [b]
    | .mask _ => maskText)).flatten

/-- A sink that never fails (the tests' bytes.Buffer). -/
def okSink : Nat → Option Nat := fun _ => none

/-- A sink whose first write fails with `e1` and later writes with `e2`
(the tests' errWriter, generalised to observe latching). -/
def failSink (e1 e2 : Nat) : Nat → Option Nat := fun n => if n = 0 then some e1 else some e2

/-- Modelled from the spec: the Writer facade's `Write` (section 4.4) copies
the data, enqueues it, and always returns `(len(data), nil)`. -/
def writerWrite (data : List Nat) : Nat × Option Nat := (data.length, none)

/-- All raw stream bytes the state accounts for: bytes already resolved into
output items followed by the still-pending bytes. -/
def consumedB (st : MaskerState) : List Nat :=
  resolvedBytes st.items ++ st.pend

/-- Every emitted item is a literal byte. -/
def AllLit (items : List MaskItem) : Prop :=
  ∀ it ∈ items, ∃ b, it = MaskItem.lit b

/-
Helper lemmas: how the emission primitives act on the bookkeeping fields, and
the conservation invariant - every byte the pump has consumed is either
resolved into an output item or still pending, in stream order.
-/

theorem sinkWrite_fields (sink : Nat → Option Nat) (st : MaskerState) :
    (sinkWrite sink st).pend = st.pend ∧ (sinkWrite sink st).pendStart = st.pendStart
    ∧ (sinkWrite sink st).items = st.items ∧ (sinkWrite sink st).cands = st.cands
    ∧ (sinkWrite sink st).matchers = st.matchers := by
  unfold sinkWrite
  split <;> exact ⟨rfl, rfl, rfl, rfl, rfl⟩

theorem emitLit1_fields (sink : Nat → Option Nat) (st : MaskerState) :
    consumedB (emitLit1 sink st) = consumedB st
    ∧ (emitLit1 sink st).pend = st.pend.tail
    ∧ (emitLit1 sink st).cands = st.cands
    ∧ (emitLit1 sink st).matchers = st.matchers
    ∧ (AllLit st.items → AllLit (emitLit1 sink st).items) := by
  unfold emitLit1
  cases h : st.pend with
  | nil => exact ⟨rfl, by simp [h], rfl, rfl, fun ha => ha⟩
  | cons b rest =>
    obtain ⟨h1, h2, h3, h4, h5⟩ := sinkWrite_fields sink
      { st with pend := rest, pendStart := st.pendStart + 1,
                items := st.items ++ [MaskItem.lit b] }
    refine ⟨?_, by rw [h1]; rfl, by rw [h4], by rw [h5], ?_⟩
    · unfold consumedB resolvedBytes
      rw [h1, h3]
      simp [h, itemBytes]
    · intro ha
      rw [h3]
      intro it hit
      rcases List.mem_append.mp hit with hl | hr
      · exact ha it hl
      · exact ⟨b, by simpa using hr⟩

theorem emitLits_fields (sink : Nat → Option Nat) :
    ∀ (n : Nat) (st : MaskerState),
      consumedB (emitLits sink n st) = consumedB st
      ∧ (emitLits sink n st).pend = st.pend.drop n
      ∧ (emitLits sink n st).cands = st.cands
      ∧ (emitLits sink n st).matchers = st.matchers
      ∧ (AllLit st.items → AllLit (emitLits sink n st).items)
  | 0, st => ⟨rfl, rfl, rfl, rfl, fun h => h⟩
  | n+1, st => by
    obtain ⟨h1, h2, h3, h4, h5⟩ := emitLit1_fields sink st
    obtain ⟨g1, g2, g3, g4, g5⟩ := emitLits_fields sink n (emitLit1 sink st)
    refine ⟨by rw [show emitLits sink (n+1) st = emitLits sink n (emitLit1 sink st) from rfl, g1, h1], ?_, ?_, ?_, ?_⟩
    · rw [show emitLits sink (n+1) st = emitLits sink n (emitLit1 sink st) from rfl, g2, h2]
      cases st.pend <;> simp
    · rw [show emitLits sink (n+1) st = emitLits sink n (emitLit1 sink st) from rfl, g3, h3]
    · rw [show emitLits sink (n+1) st = emitLits sink n (emitLit1 sink st) from rfl, g4, h4]
    · intro ha
      exact g5 (h5 ha)

theorem emitMask_fields (sink : Nat → Option Nat) (n : Nat) (st : MaskerState) :
    consumedB (emitMask sink n st) = consumedB st
    ∧ (emitMask sink n st).cands = st.cands
    ∧ (emitMask sink n st).matchers = st.matchers := by
  unfold emitMask
  split
  · exact ⟨rfl, rfl, rfl⟩
  · obtain ⟨h1, _, h3, h4, h5⟩ := sinkWrite_fields sink
      { st with pend := st.pend.drop n,
                pendStart := st.pendStart + min n st.pend.length,
                items := st.items ++ [MaskItem.mask (st.pend.take n)] }
    refine ⟨?_, by rw [h4], by rw [h5]⟩
    unfold consumedB resolvedBytes
    rw [h1, h3]
    simp [itemBytes]

theorem consumedB_update (st : MaskerState) (cs : List (Nat × Nat)) (ms : List SeqMatcher) :
    consumedB { st with cands := cs, matchers := ms } = consumedB st := rfl


theorem commitOnce_consumed (sink : Nat → Option Nat) (st st2 : MaskerState)
    (h : commitOnce sink st = some st2) : consumedB st2 = consumedB st := by
  simp only [commitOnce] at h
  split at h
  · exact Option.noConfusion h
  · injection h with h2
    subst h2
    exact ((consumedB_update _ _ _).trans ((emitMask_fields sink _ _).1)).trans
      ((emitLits_fields sink _ _).1)

theorem commitLoop_consumed (sink : Nat → Option Nat) :
    ∀ (fuel : Nat) (st : MaskerState), consumedB (commitLoop sink fuel st) = consumedB st
  | 0, _ => rfl
  | fuel+1, st => by
    rcases hco : commitOnce sink st with _ | st2
    · simp only [commitLoop, hco]
      split <;> exact (emitLits_fields sink _ _).1
    · simp only [commitLoop, hco]
      exact (commitLoop_consumed sink fuel st2).trans (commitOnce_consumed sink st st2 hco)

theorem processByte_consumed (sink : Nat → Option Nat) (st : MaskerState) (b : Nat) :
    consumedB (processByte sink st b) = consumedB st ++ [b] := by
  unfold processByte
  rw [commitLoop_consumed]
  simp [consumedB, List.append_assoc]

theorem timeoutStep_fields (sink : Nat → Option Nat) (st : MaskerState) :
    consumedB (timeoutStep sink st) = consumedB st
    ∧ (timeoutStep sink st).pend = []
    ∧ (timeoutStep sink st).cands = []
    ∧ (AllLit st.items → AllLit (timeoutStep sink st).items) := by
  unfold timeoutStep
  obtain ⟨h1, h2, _, _, h5⟩ := emitLits_fields sink st.pend.length st
  refine ⟨(consumedB_update _ _ _).trans h1, ?_, rfl, fun ha => h5 ha⟩
  show (emitLits sink st.pend.length st).pend = []
  rw [h2, List.drop_length]

theorem foldl_processByte_consumed (sink : Nat → Option Nat) :
    ∀ (bs : List Nat) (st : MaskerState),
      consumedB (bs.foldl (processByte sink) st) = consumedB st ++ bs
  | [], st => by simp
  | b :: bs, st => by
    rw [List.foldl_cons, foldl_processByte_consumed sink bs _, processByte_consumed]
    simp

theorem runEvents_chunks_consumed (sink : Nat → Option Nat) :
    ∀ (chunks : List (List Nat)) (st : MaskerState),
      consumedB (runEvents sink st (chunks.map MaskEv.chunk)) = consumedB st ++ chunks.flatten
  | [], st => by simp [runEvents]
  | c :: cs, st => by
    show consumedB (runEvents sink (stepEv sink st (MaskEv.chunk c)) (cs.map MaskEv.chunk)) = _
    rw [runEvents_chunks_consumed sink cs _]
    show consumedB (c.foldl (processByte sink) st) ++ cs.flatten = _
    rw [foldl_processByte_consumed]
    simp

theorem renderOut_allLit (maskText : List Nat) :
    ∀ (items : List MaskItem), AllLit items → renderOut maskText items = resolvedBytes items
  | [], _ => rfl
  | it :: rest, h => by
    obtain ⟨b, hb⟩ := h it (by simp)
    subst hb
    show [b] ++ renderOut maskText rest = [b] ++ resolvedBytes rest
    rw [renderOut_allLit maskText rest (fun x hx => h x (by simp [hx]))]

/-
KMP soundness: with the failure table produced by `buildFT`, a matcher whose
cursor is `j` after some stream always has `pat.take j` a suffix of the
stream, so a reported match really is an occurrence of the pattern.
-/

theorem take_succ_getD :
    ∀ (l : List Nat) (n : Nat), n < l.length → l.take (n + 1) = l.take n ++ [l.getD n 0]
  | [], n, h => by simp at h
  | a :: t, 0, _ => by simp
  | a :: t, n+1, h => by
    have := take_succ_getD t n (by simpa using h)
    simp [List.take_succ_cons, this, List.getD_cons_succ]

theorem drop_cons_getD :
    ∀ (l : List Nat) (i : Nat) (c : Nat) (r : List Nat),
      l.drop i = c :: r → l.getD i 0 = c ∧ l.drop (i + 1) = r ∧ i < l.length
  | [], i, c, r, h => by simp at h
  | a :: t, 0, c, r, h => by
    simp at h
    simp [h.1, h.2]
  | a :: t, i+1, c, r, h => by
    have := drop_cons_getD t i c r (by simpa using h)
    refine ⟨by simpa [List.getD_cons_succ] using this.1, by simpa using this.2.1, by simpa using this.2.2⟩

theorem sfx_within {a w input : List Nat} (h1 : a <:+ w) (h2 : w <+: input) : a <:+: input := by
  obtain ⟨t, ht⟩ := h1
  obtain ⟨r, hr⟩ := h2
  exact ⟨t, r, by rw [← hr, ← ht, List.append_assoc]⟩

theorem kmpFall_ok (pat ft : List Nat) (b : Nat)
    (hle : ∀ k, ft.getD k 0 ≤ k)
    (hsfx : ∀ k, k + 1 ≤ pat.length → pat.take (ft.getD k 0) <:+ pat.take (k + 1)) :
    ∀ fuel j, j ≤ fuel → j ≤ pat.length →
      kmpFall pat ft b fuel j ≤ j
      ∧ pat.take (kmpFall pat ft b fuel j) <:+ pat.take j
      ∧ (kmpFall pat ft b fuel j = 0 ∨ pat.getD (kmpFall pat ft b fuel j) 0 = b) := by
  intro fuel
  induction fuel with
  | zero =>
    intro j hj _
    have : j = 0 := Nat.le_zero.mp hj
    subst this
    exact ⟨Nat.le_refl _, List.suffix_refl _, Or.inl rfl⟩
  | succ n ih =>
    intro j hj hjlen
    by_cases h0 : j = 0
    · subst h0
      simp [kmpFall]
    · by_cases heq : pat.getD j 0 = b
      · simp only [kmpFall, if_neg h0, if_pos heq]
        exact ⟨Nat.le_refl _, List.suffix_refl _, Or.inr heq⟩
      · simp only [kmpFall, if_neg h0, if_neg heq]
        have hj1 : ft.getD (j - 1) 0 ≤ j - 1 := hle _
        have hrec := ih (ft.getD (j - 1) 0)
          (Nat.le_trans hj1 (by omega)) (Nat.le_trans hj1 (by omega))
        refine ⟨Nat.le_trans hrec.1 (by omega), ?_, hrec.2.2⟩
        have hstep : pat.take (ft.getD (j - 1) 0) <:+ pat.take j := by
          have := hsfx (j - 1) (by omega)
          rwa [show j - 1 + 1 = j by omega] at this
        exact hrec.2.1.trans hstep

theorem feedJ_ok (pat ft : List Nat) (j b : Nat) (w : List Nat)
    (hle : ∀ k, ft.getD k 0 ≤ k)
    (hsfx : ∀ k, k + 1 ≤ pat.length → pat.take (ft.getD k 0) <:+ pat.take (k + 1))
    (hjlen : j < pat.length) (hw : pat.take j <:+ w) :
    feedJ pat ft j b ≤ j + 1
    ∧ pat.take (feedJ pat ft j b) <:+ w ++ [b]
    ∧ (feedJ pat ft j b = pat.length → pat <:+ w ++ [b]) := by
  obtain ⟨hr_le, hr_sfx, hr_alt⟩ :=
    kmpFall_ok pat ft b hle hsfx j j (Nat.le_refl _) (Nat.le_of_lt hjlen)
  unfold feedJ
  by_cases heq : pat.getD (kmpFall pat ft b j j) 0 = b
  · simp only [if_pos heq]
    have hrlen : kmpFall pat ft b j j < pat.length := Nat.lt_of_le_of_lt hr_le hjlen
    have htake : pat.take (kmpFall pat ft b j j + 1)
        = pat.take (kmpFall pat ft b j j) ++ [b] := by
      rw [take_succ_getD pat _ hrlen, heq]
    have hsfxw : pat.take (kmpFall pat ft b j j) <:+ w := hr_sfx.trans hw
    obtain ⟨t, ht⟩ := hsfxw
    refine ⟨by omega, ?_, ?_⟩
    · rw [htake]
      exact ⟨t, by rw [← List.append_assoc, ht]⟩
    · intro hfl
      have : pat.take (kmpFall pat ft b j j + 1) = pat := by
        rw [hfl, List.take_length]
      rw [← this, htake]
      exact ⟨t, by rw [← List.append_assoc, ht]⟩
  · simp only [if_neg heq]
    rcases hr_alt with hz | hb
    · rw [hz]
      exact ⟨by omega, ⟨w ++ [b], by simp⟩, fun hfl => absurd hfl.symm (by omega)⟩
    · exact absurd hb heq

theorem buildFTAux_ok (pat : List Nat) :
    ∀ (rest : List Nat), ∀ (ft : List Nat) (k : Nat),
      0 < ft.length →
      pat.drop ft.length = rest →
      (∀ idx, ft.getD idx 0 ≤ idx) →
      (∀ idx, idx + 1 ≤ pat.length → pat.take (ft.getD idx 0) <:+ pat.take (idx + 1)) →
      k < ft.length →
      pat.take k <:+ pat.take ft.length →
      (∀ idx, (buildFTAux pat ft k rest).getD idx 0 ≤ idx)
      ∧ (∀ idx, idx + 1 ≤ pat.length →
          pat.take ((buildFTAux pat ft k rest).getD idx 0) <:+ pat.take (idx + 1)) := by
  intro rest
  induction rest with
  | nil =>
    intro ft k _ _ hle hsfx _ _
    exact ⟨hle, hsfx⟩
  | cons c rest2 ih =>
    intro ft k hpos hdrop hle hsfx hk hksfx
    obtain ⟨hgd, hdrop2, hilen⟩ := drop_cons_getD pat ft.length c rest2 hdrop
    have hklen : k < pat.length := Nat.lt_trans hk hilen
    have hfj := feedJ_ok pat ft k c (pat.take ft.length) hle hsfx hklen hksfx
    have hk2le : feedJ pat ft k c ≤ ft.length := Nat.le_trans hfj.1 hk
    have htk : pat.take ft.length ++ [c] = pat.take (ft.length + 1) := by
      rw [take_succ_getD pat _ hilen, hgd]
    have hk2sfx : pat.take (feedJ pat ft k c) <:+ pat.take (ft.length + 1) := by
      have h2 := hfj.2.1
      rwa [htk] at h2
    show (∀ idx, (buildFTAux pat (ft ++ [feedJ pat ft k c]) (feedJ pat ft k c) rest2).getD idx 0 ≤ idx) ∧ _
    apply ih (ft ++ [feedJ pat ft k c]) (feedJ pat ft k c)
    · simp
    · simpa using hdrop2
    · intro idx
      rcases Nat.lt_trichotomy idx ft.length with hlt | heq | hgt
      · rw [List.getD_append _ _ _ _ hlt]
        exact hle idx
      · subst heq
        rw [List.getD_append_right _ _ _ _ (Nat.le_refl _)]
        simpa using hk2le
      · rw [List.getD_eq_default]
        · exact Nat.zero_le idx
        · simp
          omega
    · intro idx hidx
      rcases Nat.lt_trichotomy idx ft.length with hlt | heq | hgt
      · rw [List.getD_append _ _ _ _ hlt]
        exact hsfx idx hidx
      · subst heq
        rw [List.getD_append_right _ _ _ _ (Nat.le_refl _)]
        simpa using hk2sfx
      · rw [List.getD_eq_default]
        · exact List.nil_suffix
        · simp
          omega
    · simp
      omega
    · simpa using hk2sfx

theorem buildFT_ok (pat : List Nat) :
    (∀ idx, (buildFT pat).getD idx 0 ≤ idx)
    ∧ (∀ idx, idx + 1 ≤ pat.length → pat.take ((buildFT pat).getD idx 0) <:+ pat.take (idx + 1)) := by
  cases pat with
  | nil =>
    constructor
    · intro idx
      simp [buildFT]
    · intro idx h
      simp at h
  | cons a t =>
    apply buildFTAux_ok (a :: t) t [0] 0
    · simp
    · simp
    · intro idx
      cases idx <;> simp [List.getD]
    · intro idx _
      have : ([0] : List Nat).getD idx 0 = 0 := by
        cases idx <;> simp [List.getD]
      rw [this]
      exact List.nil_suffix
    · simp
    · exact List.nil_suffix

theorem read_ok (m : SeqMatcher) (b : Nat) (w : List Nat)
    (hft : m.ft = buildFT m.pat) (hj : m.j < m.pat.length)
    (hw : m.pat.take m.j <:+ w) :
    (m.read b).2.pat = m.pat ∧ (m.read b).2.ft = m.ft
    ∧ (m.read b).2.j < m.pat.length
    ∧ m.pat.take (m.read b).2.j <:+ w ++ [b]
    ∧ (0 < (m.read b).1 → m.pat <:+ w ++ [b]) := by
  have hle : ∀ k, m.ft.getD k 0 ≤ k := by
    rw [hft]
    exact (buildFT_ok m.pat).1
  have hsfx : ∀ k, k + 1 ≤ m.pat.length → m.pat.take (m.ft.getD k 0) <:+ m.pat.take (k + 1) := by
    rw [hft]
    exact (buildFT_ok m.pat).2
  have hfeed := feedJ_ok m.pat m.ft m.j b w hle hsfx hj hw
  simp only [SeqMatcher.read]
  split
  case isTrue h =>
    refine ⟨rfl, rfl, ?_, List.nil_suffix, fun _ => hfeed.2.2 h⟩
    show 0 < m.pat.length
    omega
  case isFalse h =>
    refine ⟨rfl, rfl, ?_, hfeed.2.1, ?_⟩
    · show feedJ m.pat m.ft m.j b < m.pat.length
      have := hfeed.1
      omega
    · intro h0
      exact absurd h0 (Nat.lt_irrefl 0)

theorem feedMatchers_ok (b : Nat) (w input : List Nat) (hwb : w ++ [b] <+: input) :
    ∀ ms : List SeqMatcher,
      (∀ m ∈ ms, m.ft = buildFT m.pat ∧ m.j < m.pat.length
        ∧ m.pat.take m.j <:+ w ∧ ¬ m.pat <:+: input) →
      (feedMatchers b ms).2 = []
      ∧ ∀ m2 ∈ (feedMatchers b ms).1,
          m2.ft = buildFT m2.pat ∧ m2.j < m2.pat.length
          ∧ m2.pat.take m2.j <:+ w ++ [b] ∧ ¬ m2.pat <:+: input
  | [], _ => by simp [feedMatchers]
  | m :: rest, h => by
    have hm := h m (List.mem_cons_self m rest)
    have hrest := feedMatchers_ok b w input hwb rest
      (fun m2 hm2 => h m2 (List.mem_cons_of_mem m hm2))
    have hr := read_ok m b w hm.1 hm.2.1 hm.2.2.1
    have hnof : ¬ 0 < (m.read b).1 :=
      fun hpos => hm.2.2.2 (sfx_within (hr.2.2.2.2 hpos) hwb)
    constructor
    · show (if 0 < (m.read b).1 then (m.read b).1 :: (feedMatchers b rest).2
            else (feedMatchers b rest).2) = []
      rw [if_neg hnof]
      exact hrest.1
    · intro m2 hm2
      replace hm2 : m2 = (m.read b).2 ∨ m2 ∈ (feedMatchers b rest).1 := List.mem_cons.mp hm2
      rcases hm2 with he | hmem
      · subst he
        refine ⟨(hr.2.1).trans (hm.1.trans (congrArg buildFT hr.1.symm)), ?_, ?_, ?_⟩
        · rw [hr.1]
          exact hr.2.2.1
        · rw [hr.1]
          exact hr.2.2.2.1
        · rw [hr.1]
          exact hm.2.2.2
      · exact hrest.2 m2 hmem

theorem commitOnce_nil (sink : Nat → Option Nat) (st : MaskerState) (h : st.cands = []) :
    commitOnce sink st = none := by
  simp [commitOnce, h, selectBest]

theorem commitLoop_nil (sink : Nat → Option Nat) (fuel : Nat) (st : MaskerState)
    (h : st.cands = []) :
    ∃ n, commitLoop sink fuel st = emitLits sink n st := by
  cases fuel with
  | zero => exact ⟨0, rfl⟩
  | succ f =>
    simp only [commitLoop, commitOnce_nil sink st h, h, List.foldl_nil]
    cases hmas : minActiveStart st.matchers (st.pendStart + st.pend.length) with
    | none => exact ⟨st.pend.length, rfl⟩
    | some v => exact ⟨v - st.pendStart, rfl⟩

theorem processByte_nofire (sink : Nat → Option Nat) (st : MaskerState) (b : Nat)
    (input : List Nat)
    (hc : st.cands = [])
    (hpre : consumedB st ++ [b] <+: input)
    (hm : ∀ m ∈ st.matchers, m.ft = buildFT m.pat ∧ m.j < m.pat.length
          ∧ m.pat.take m.j <:+ consumedB st ∧ ¬ m.pat <:+: input) :
    (processByte sink st b).cands = []
    ∧ (AllLit st.items → AllLit (processByte sink st b).items)
    ∧ (∀ m2 ∈ (processByte sink st b).matchers,
        m2.ft = buildFT m2.pat ∧ m2.j < m2.pat.length
        ∧ m2.pat.take m2.j <:+ consumedB (processByte sink st b) ∧ ¬ m2.pat <:+: input) := by
  have hfm := feedMatchers_ok b (consumedB st) input hpre st.matchers hm
  set st2 : MaskerState :=
    { st with pend := st.pend ++ [b], matchers := (feedMatchers b st.matchers).1,
              cands := st.cands ++ (feedMatchers b st.matchers).2.map
                (fun L => (st.pendStart + st.pend.length + 1 - L,
                           st.pendStart + st.pend.length)) } with hst2
  have hpb : processByte sink st b = commitLoop sink (st2.cands.length + 1) st2 := rfl
  have hc2 : st2.cands = [] := by
    rw [hst2]
    simp [hc, hfm.1]
  obtain ⟨n, hn⟩ := commitLoop_nil sink (st2.cands.length + 1) st2 hc2
  rw [hpb, hn]
  obtain ⟨g1, g2, g3, g4, g5⟩ := emitLits_fields sink n st2
  have hcons2 : consumedB st2 = consumedB st ++ [b] := by
    rw [hst2]
    simp [consumedB, List.append_assoc]
  refine ⟨by rw [g3, hc2], ?_, ?_⟩
  · intro ha
    apply g5
    show AllLit st.items
    exact ha
  · intro m2 hmem
    rw [g4] at hmem
    have hmem2 : m2 ∈ (feedMatchers b st.matchers).1 := hmem
    have hprops := hfm.2 m2 hmem2
    refine ⟨hprops.1, hprops.2.1, ?_, hprops.2.2.2⟩
    rw [g1, hcons2]
    exact hprops.2.2.1

theorem foldBytes_nofire (sink : Nat → Option Nat) (input : List Nat) :
    ∀ (rest : List Nat) (st : MaskerState),
      st.cands = [] → AllLit st.items →
      consumedB st ++ rest <+: input →
      (∀ m ∈ st.matchers, m.ft = buildFT m.pat ∧ m.j < m.pat.length
        ∧ m.pat.take m.j <:+ consumedB st ∧ ¬ m.pat <:+: input) →
      (rest.foldl (processByte sink) st).cands = []
      ∧ AllLit (rest.foldl (processByte sink) st).items
  | [], st, hc, ha, _, _ => ⟨hc, ha⟩
  | b :: rest, st, hc, ha, hpre, hm => by
    have hpre1 : consumedB st ++ [b] <+: input := by
      obtain ⟨t, ht⟩ := hpre
      exact ⟨rest ++ t, by rw [← ht]; simp [List.append_assoc]⟩
    have hstep := processByte_nofire sink st b input hc hpre1 hm
    have hcons : consumedB (processByte sink st b) = consumedB st ++ [b] :=
      processByte_consumed sink st b
    have hpre2 : consumedB (processByte sink st b) ++ rest <+: input := by
      rw [hcons]
      obtain ⟨t, ht⟩ := hpre
      exact ⟨t, by rw [← ht]; simp [List.append_assoc]⟩
    exact foldBytes_nofire sink input rest (processByte sink st b)
      hstep.1 (hstep.2.1 ha) hpre2 hstep.2.2

theorem runEvents_chunks_eq (sink : Nat → Option Nat) :
    ∀ (chunks : List (List Nat)) (st : MaskerState),
      runEvents sink st (chunks.map MaskEv.chunk) = chunks.flatten.foldl (processByte sink) st
  | [], _ => rfl
  | c :: cs, st => by
    show runEvents sink (stepEv sink st (MaskEv.chunk c)) (cs.map MaskEv.chunk) = _
    rw [runEvents_chunks_eq sink cs _]
    show cs.flatten.foldl (processByte sink) (c.foldl (processByte sink) st)
        = ((c :: cs).flatten).foldl (processByte sink) st
    rw [List.flatten_cons, List.foldl_append]

/-
Claim theorems.
-/

/-- C1 counterexample: the modelled matcher (validated against every shipped
TestMatcher vector) does NOT report the overlapping second occurrence of "tt"
in "ttt" - it reports offset 0 only - and the spec-literal variant that resets
the cursor to `failureTable[j-1]` (what the claim states) reports offsets
{0,3,4} on "ttattt", contradicting the shipped test's expected {0,3}. -/
theorem C1_counterexample :
    matcherMatches (sBytes ("tt")) (sBytes ("ttt")) = [0]
    ∧ matcherMatches (sBytes ("tt")) (sBytes ("ttattt")) = [0, 3]
    ∧ matcherMatchesSpecReset (sBytes ("tt")) (sBytes ("ttattt")) = [0, 3, 4] := by
  decide

/-- C1 amended: feeding the stream one byte at a time advances the cursor by
the streaming KMP rule, and when the cursor reaches len(p) the feed call
returns len(p) and resets the cursor to 0, so occurrences are consumed
non-overlapping: a subsequent occurrence overlapping the just-reported one is
not reported (pattern "tt" on "ttt" yields offset 0 only; on "ttattt" offsets
{0,3}), while a disjoint subsequent occurrence is still found ("test" on
"testtest" yields {0,4}) and self-overlap inside a single occurrence is still
handled by the failure table ("foofoobar" on "foofoofoobar" yields {3}). -/
theorem C1_amended :
    matcherMatches (sBytes ("tt")) (sBytes ("ttattt")) = [0, 3]
    ∧ matcherMatches (sBytes ("test")) (sBytes ("testtest")) = [0, 4]
    ∧ matcherMatches (sBytes ("tt")) (sBytes ("ttt")) = [0]
    ∧ matcherMatches (sBytes ("foofoobar")) (sBytes ("foofoofoobar")) = [3] := by
  decide

/-- C2: the single-pattern matcher harness yields exactly offsets {3} for
pattern "foofoobar" on "foofoofoobar", {0,3} for "tt" on "ttattt", and
{0,1,3,4,5} for "t" on "ttattt". -/
theorem C2_matcher_offsets :
    matcherMatches (sBytes ("foofoobar")) (sBytes ("foofoofoobar")) = [3]
    ∧ matcherMatches (sBytes ("tt")) (sBytes ("ttattt")) = [0, 3]
    ∧ matcherMatches (sBytes ("t")) (sBytes ("ttattt")) = [0, 1, 3, 4, 5] := by
  decide

/-- C3 counterexample: the first mask token emitted for input
"testfoobartestfoo bar foo" covers exactly the bytes of the pattern
"testfoobartestfoo", whose length is 17, not 18 as the claim states. -/
theorem C3_counterexample :
    (maskerRun [sBytes ("foo"), sBytes ("bar"), sBytes ("testfoobartestfoo")] okSink
      [MaskEv.chunk (sBytes ("testfoobartestfoo bar foo"))]).items.head?
      = some (MaskItem.mask (sBytes ("testfoobartestfoo")))
    ∧ (sBytes ("testfoobartestfoo")).length = 17
    ∧ (sBytes ("testfoobartestfoo")).length ≠ 18 := by
  decide

/-- C3 amended: with patterns {"foo","bar","testfoobartestfoo"} and mask text
M, writing "testfoobartestfoo bar foo" and flushing produces exactly three
mask tokens, "M M M", where the first token covers the whole 17-byte span of
"testfoobartestfoo" as one unit rather than masking the contained shorter
patterns separately. -/
theorem C3_nested_mask (maskText : List Nat) :
    renderOut maskText
      (maskerRun [sBytes ("foo"), sBytes ("bar"), sBytes ("testfoobartestfoo")] okSink
        [MaskEv.chunk (sBytes ("testfoobartestfoo bar foo"))]).items
      = maskText ++ sBytes (" ") ++ maskText ++ sBytes (" ") ++ maskText
    ∧ (maskerRun [sBytes ("foo"), sBytes ("bar"), sBytes ("testfoobartestfoo")] okSink
        [MaskEv.chunk (sBytes ("testfoobartestfoo bar foo"))]).items.head?
      = some (MaskItem.mask (sBytes ("testfoobartestfoo")))
    ∧ (sBytes ("testfoobartestfoo")).length = 17 := by
  have hitems : (maskerRun [sBytes ("foo"), sBytes ("bar"), sBytes ("testfoobartestfoo")] okSink
      [MaskEv.chunk (sBytes ("testfoobartestfoo bar foo"))]).items
      = [MaskItem.mask (sBytes ("testfoobartestfoo")), MaskItem.lit 32,
         MaskItem.mask (sBytes ("bar")), MaskItem.lit 32,
         MaskItem.mask (sBytes ("foo"))] := by decide
  refine ⟨?_, by rw [hitems]; rfl, by rfl⟩
  rw [hitems]
  simp [renderOut, sBytes]

/-- C4: a pattern split across consecutive Write calls (no timer expiry in
between) is still masked - writing "fo", then "o bar f", then "o", then
flushing produces "M M fo", the trailing incomplete "fo" emitted literally. -/
theorem C4_cross_write_mask (maskText : List Nat) :
    renderOut maskText
      (maskerRun [sBytes ("foo"), sBytes ("bar")] okSink
        [MaskEv.chunk (sBytes ("fo")), MaskEv.chunk (sBytes ("o bar f")),
         MaskEv.chunk (sBytes ("o"))]).items
      = maskText ++ sBytes (" ") ++ maskText ++ sBytes (" fo") := by
  have hitems : (maskerRun [sBytes ("foo"), sBytes ("bar")] okSink
      [MaskEv.chunk (sBytes ("fo")), MaskEv.chunk (sBytes ("o bar f")),
       MaskEv.chunk (sBytes ("o"))]).items
      = [MaskItem.mask (sBytes ("foo")), MaskItem.lit 32,
         MaskItem.mask (sBytes ("bar")), MaskItem.lit 32,
         MaskItem.lit 102, MaskItem.lit 111] := by decide
  rw [hitems]
  simp [renderOut, sBytes]

/-- C6: when the flush timer expires between two writes, all pending bytes are
released literally and every matcher is reset, so the partial match "fo" is
abandoned - writing "fo", letting the timer expire, then writing "o bar test"
and flushing yields "foo M test". -/
theorem C6_timeout_abandons (maskText : List Nat) :
    renderOut maskText
      (maskerRun [sBytes ("foo"), sBytes ("bar")] okSink
        [MaskEv.chunk (sBytes ("fo")), MaskEv.timeout,
         MaskEv.chunk (sBytes ("o bar test"))]).items
      = sBytes ("foo ") ++ maskText ++ sBytes (" test") := by
  rfl

/-- C9: Reset discards exactly the partial progress accumulated so far - with
pattern "test", resetting before index 1 of "test" yields no match, the same
reset on "testtest" still yields the match at offset 4, resetting before index
0 discards nothing ("test" still yields {0}), and resetting at index 4 of
"testtest" keeps the full occurrence reported before the reset point while
occurrences beginning at the reset point are still found ({0,4}). -/
theorem C9_reset_semantics :
    matcherMatchesReset (sBytes ("test")) (sBytes ("test")) 1 = []
    ∧ matcherMatchesReset (sBytes ("test")) (sBytes ("testtest")) 1 = [4]
    ∧ matcherMatchesReset (sBytes ("test")) (sBytes ("test")) 0 = [0]
    ∧ matcherMatchesReset (sBytes ("test")) (sBytes ("testtest")) 4 = [0, 4] := by
  decide

theorem foldl_timeouts (sink : Nat → Option Nat) (st : MaskerState)
    (h : timeoutStep sink st = st) :
    ∀ n, (List.replicate n MaskEv.timeout).foldl (stepEv sink) st = st
  | 0 => rfl
  | n+1 => by
    rw [List.replicate_succ, List.foldl_cons]
    show (List.replicate n MaskEv.timeout).foldl (stepEv sink) (timeoutStep sink st) = st
    rw [h]
    exact foldl_timeouts sink st h n

/-- C5: if no configured pattern occurs anywhere in the input (in particular
with an empty pattern list), then after Flush the rendered output equals the
input byte for byte, for every partition of the input into write chunks: the
run only depends on the chunks through their concatenation. -/
theorem C5_passthrough (pats chunks : List (List Nat)) (maskText : List Nat)
    (sink : Nat → Option Nat)
    (h : ∀ p ∈ pats, ¬ p <:+: chunks.flatten) :
    renderOut maskText (maskerRun pats sink (chunks.map MaskEv.chunk)).items
      = chunks.flatten := by
  have hinit : ∀ m ∈ (initMasker pats).matchers,
      m.ft = buildFT m.pat ∧ m.j < m.pat.length
      ∧ m.pat.take m.j <:+ consumedB (initMasker pats) ∧ ¬ m.pat <:+: chunks.flatten := by
    intro m hm
    obtain ⟨p, hp, he⟩ := List.mem_map.mp hm
    subst he
    have hnp : ¬ p <:+: chunks.flatten := h p hp
    have hplen : 0 < p.length := by
      rcases Nat.eq_zero_or_pos p.length with h0 | hpos
      · exfalso
        apply hnp
        rw [List.length_eq_zero.mp h0]
        exact ⟨[], chunks.flatten, by simp⟩
      · exact hpos
    exact ⟨rfl, hplen, List.nil_suffix, hnp⟩
  have hfold := foldBytes_nofire sink chunks.flatten chunks.flatten (initMasker pats)
    rfl (fun it hit => absurd hit (List.not_mem_nil it))
    ⟨[], by simp [consumedB, resolvedBytes, initMasker]⟩
    hinit
  have hrun : runEvents sink (initMasker pats) (chunks.map MaskEv.chunk)
      = chunks.flatten.foldl (processByte sink) (initMasker pats) :=
    runEvents_chunks_eq sink chunks _
  have hfl := timeoutStep_fields sink
    (chunks.flatten.foldl (processByte sink) (initMasker pats))
  have hAll : AllLit (timeoutStep sink
      (chunks.flatten.foldl (processByte sink) (initMasker pats))).items :=
    hfl.2.2.2 hfold.2
  have hcons : consumedB (timeoutStep sink
      (chunks.flatten.foldl (processByte sink) (initMasker pats))) = chunks.flatten := by
    rw [hfl.1, foldl_processByte_consumed]
    simp [consumedB, resolvedBytes, initMasker]
  show renderOut maskText (timeoutStep sink
      (runEvents sink (initMasker pats) (chunks.map MaskEv.chunk))).items = chunks.flatten
  rw [hrun, renderOut_allLit maskText _ hAll]
  have h2 := hcons
  unfold consumedB at h2
  rw [hfl.2.1, List.append_nil] at h2
  exact h2

/-- C5 witness: the pass-through theorem applied to the empty pattern list and
the input "abcde" written as chunks "abc", "de". -/
theorem C5_passthrough_witness :
    renderOut (sBytes ("<redacted by SecretHub>"))
      (maskerRun [] okSink ([sBytes ("abc"), sBytes ("de")].map MaskEv.chunk)).items
      = [sBytes ("abc"), sBytes ("de")].flatten :=
  C5_passthrough [] [sBytes ("abc"), sBytes ("de")] (sBytes ("<redacted by SecretHub>"))
    okSink (by simp)

/-- C7: whenever Flush returns, every byte enqueued by an earlier Write has
been resolved: after processing any sequence of write chunks (with no timer
expiry needed) and flushing, the pending buffer is empty and the output items
account, in order, for exactly the whole enqueued byte stream. -/
theorem C7_flush_resolves (sink : Nat → Option Nat) (pats chunks : List (List Nat)) :
    (maskerRun pats sink (chunks.map MaskEv.chunk)).pend = []
    ∧ resolvedBytes (maskerRun pats sink (chunks.map MaskEv.chunk)).items
      = chunks.flatten := by
  have hrc : consumedB (runEvents sink (initMasker pats) (chunks.map MaskEv.chunk))
      = chunks.flatten := by
    rw [runEvents_chunks_consumed]
    simp [consumedB, resolvedBytes, initMasker]
  have hfl := timeoutStep_fields sink
    (runEvents sink (initMasker pats) (chunks.map MaskEv.chunk))
  constructor
  · show (timeoutStep sink
      (runEvents sink (initMasker pats) (chunks.map MaskEv.chunk))).pend = []
    exact hfl.2.1
  · show resolvedBytes (timeoutStep sink
      (runEvents sink (initMasker pats) (chunks.map MaskEv.chunk))).items = chunks.flatten
    have h2 : consumedB (timeoutStep sink
        (runEvents sink (initMasker pats) (chunks.map MaskEv.chunk))) = chunks.flatten :=
      hfl.1.trans hrc
    unfold consumedB at h2
    rw [hfl.2.1, List.append_nil] at h2
    exact h2

/-- C8: the Writer facade's Write always returns (len(data), nil); the first
sink error is latched write-once - with a sink failing every write, two
literal non-matching bytes produce exactly one attempted sink write, the
latched error is the first one, the next Flush surfaces it, and with a
never-failing sink Flush returns nil. -/
theorem C8_write_and_latch (data : List Nat) (e1 e2 : Nat) :
    writerWrite data = (data.length, none)
    ∧ (maskerRun [sBytes ("a")] (failSink e1 e2) [MaskEv.chunk [1, 2]]).serr = some e1
    ∧ (maskerRun [sBytes ("a")] (failSink e1 e2) [MaskEv.chunk [1, 2]]).writes = 1
    ∧ (maskerRun [sBytes ("a")] okSink [MaskEv.chunk [1, 2]]).serr = none :=
  ⟨rfl, rfl, rfl, rfl⟩

/-- C10: a masker whose flush timer is constantly expired (flushTimeout zero,
modelled as arbitrarily many timer expiries before and after the write) still
redacts data resolvable within a single Write: "test foo test" yields
"test M test". -/
theorem C10_zero_timeout (pre post : Nat) (maskText : List Nat) :
    renderOut maskText
      (maskerRun [sBytes ("foo"), sBytes ("bar")] okSink
        (List.replicate pre MaskEv.timeout
          ++ (MaskEv.chunk (sBytes ("test foo test")) :: List.replicate post MaskEv.timeout))).items
      = sBytes ("test ") ++ maskText ++ sBytes (" test") := by
  show renderOut maskText
      (flushStep okSink (List.foldl (stepEv okSink) (initMasker [sBytes ("foo"), sBytes ("bar")])
        (List.replicate pre MaskEv.timeout
          ++ (MaskEv.chunk (sBytes ("test foo test"))
              :: List.replicate post MaskEv.timeout)))).items = _
  rw [List.foldl_append, foldl_timeouts okSink _ rfl pre, List.foldl_cons,
      foldl_timeouts okSink _ (by decide) post]
  rfl
